import Mathlib

/-!
Shallow embedding of `src/battery.py` (CarbonExplorer battery models and
capacity-sizing algorithms) over the rationals, together with theorems
checking the natural-language specification against the code.

Python floats are modelled as `ℚ`; the `np.nan` infeasibility sentinel is
modelled as `none` in `Option ℚ`, with the IEEE comparison behaviour of
`nan` made explicit where the source compares against it.
-/

set_option maxHeartbeats 1000000

/-- The lossless battery model (`class Battery`). -/
structure Battery where
  capacity : ℚ
  current_load : ℚ
  deriving DecidableEq, Repr

/-- `Battery.charge`: adds `input_load`, clamps at `capacity`, returns the
pair (new state, returned `current_load`). -/
def Battery.charge (b : Battery) (input_load : ℚ) : Battery × ℚ :=
  let l := b.current_load + input_load
  if l > b.capacity then ({ b with current_load := b.capacity }, b.capacity)
  else ({ b with current_load := l }, l)

/-- `Battery.discharge`: subtracts `output_load`; on underflow clamps to 0 and
returns `output_load + lacking_amount` (the energy actually delivered). -/
def Battery.discharge (b : Battery) (output_load : ℚ) : Battery × ℚ :=
  let l := b.current_load - output_load
  if l < 0 then ({ b with current_load := 0 }, output_load + l)
  else ({ b with current_load := l }, output_load)

/-- `Battery.is_full`: exact equality test. -/
def Battery.is_full (b : Battery) : Bool :=
  b.capacity == b.current_load

/-- `Battery.find_and_init_capacity`: grows `capacity` by `input_load`. -/
def Battery.find_and_init_capacity (b : Battery) (input_load : ℚ) : Battery :=
  { b with capacity := b.capacity + input_load }

/-- The lossy, rate-limited battery model (`class Battery2`). -/
structure Battery2 where
  capacity : ℚ
  current_load : ℚ
  eff_c : ℚ
  eff_d : ℚ
  upper_lim_u : ℚ
  upper_lim_v : ℚ
  lower_lim_u : ℚ
  lower_lim_v : ℚ
  deriving DecidableEq, Repr

/-- `Battery2.__init__` with the default lithium-NMC coefficients
(`eff_c = 0.98`, `eff_d = 1.05`, `upper_u = -0.125`, `upper_v = 1`,
`lower_u = 0.05`, `lower_v = 0`). -/
def mkBattery2 (capacity current_load : ℚ) : Battery2 :=
  ⟨capacity, current_load, 49/50, 21/20, -(1/8), 1, 1/20, 0⟩

/-- `Battery2.calc_max_charge`. -/
def Battery2.calc_max_charge (b : Battery2) : ℚ :=
  min (b.capacity / b.eff_c)
    ((b.upper_lim_v * b.capacity - b.current_load) / (b.eff_c - b.upper_lim_u))

/-- `Battery2.calc_max_discharge`. -/
def Battery2.calc_max_discharge (b : Battery2) : ℚ :=
  min (b.capacity / b.eff_d)
    ((b.current_load - b.lower_lim_v * b.capacity) / (b.lower_lim_u + b.eff_d))

/-- `Battery2.charge`: no clamping; the rate limit is applied via
`calc_max_charge` and the stored increment is scaled by `eff_c`.
Returns (new state, new `current_load`). -/
def Battery2.charge (b : Battery2) (input_load : ℚ) : Battery2 × ℚ :=
  let mc := b.calc_max_charge
  let l := b.current_load + min mc input_load * b.eff_c
  ({ b with current_load := l }, l)

/-- `Battery2.discharge`: removes `min(calc_max_discharge(), output_load) * eff_d`
from storage; returns `max_discharge` on partial discharge, else `output_load`. -/
def Battery2.discharge (b : Battery2) (output_load : ℚ) : Battery2 × ℚ :=
  let md := b.calc_max_discharge
  ({ b with current_load := b.current_load - min md output_load * b.eff_d },
   if md < output_load then md else output_load)

/-- `Battery2.is_full`. -/
def Battery2.is_full (b : Battery2) : Bool :=
  b.capacity == b.current_load

/-- The `while True` refinement loop inside `Battery2.find_and_init_capacity`,
with an explicit fuel bound (`none` = the loop did not finish within `fuel`
iterations).  State: (`self.capacity`, `new_capacity`); both grow by 0.1 while
`power_lim < input_load`.  Returns the final (`capacity`, `new_capacity`). -/
def fiLoop (lu lv ed input_load : ℚ) : ℕ → ℚ → ℚ → Option (ℚ × ℚ)
  | 0, _, _ => none
  | fuel + 1, cap, newcap =>
    if (newcap - lv * cap) / (lu + ed) < input_load then
      fiLoop lu lv ed input_load fuel (cap + 1/10) (newcap + 1/10)
    else some (cap, newcap)

/-- `Battery2.find_and_init_capacity`: first grows `capacity` by
`input_load * eff_d`, then runs the 0.1-increment refinement loop (fuel-indexed
because the source loop is unbounded for degenerate coefficients). -/
def Battery2.find_and_init_capacity (b : Battery2) (input_load : ℚ) (fuel : ℕ) :
    Option Battery2 :=
  match fiLoop b.lower_lim_u b.lower_lim_v b.eff_d input_load fuel
      (b.capacity + input_load * b.eff_d) (input_load * b.eff_d) with
  | none => none
  | some (c, _) => some { b with capacity := c }

/-- `sim_battery_247` applied to a lossless `Battery`; the aligned series is a
list of (renewable, facility-draw) pairs. -/
def sim_battery_247 : List (ℚ × ℚ) → Battery → Bool
  | [], _ => true
  | (ren, dc) :: rest, b =>
    let net := ren - dc
    if net > 0 then sim_battery_247 rest (b.charge net).1
    else
      let r := b.discharge (-net)
      if r.2 < -net then false else sim_battery_247 rest r.1

/-- `sim_battery_247` applied to a `Battery2` (the Python function is
duck-typed over the battery argument). -/
def sim_battery_247_b2 : List (ℚ × ℚ) → Battery2 → Bool
  | [], _ => true
  | (ren, dc) :: rest, b =>
    let net := ren - dc
    if net > 0 then sim_battery_247_b2 rest (b.charge net).1
    else
      let r := b.discharge (-net)
      if r.2 < -net then false else sim_battery_247_b2 rest r.1

lemma ceil_half_lt {w : ℚ} (hw : 1/10 < w) :
    (⌈(w / 2) * 10⌉).toNat < (⌈w * 10⌉).toNat := by
  have h2 : (1 : ℤ) < ⌈w * 10⌉ := by
    rw [Int.lt_ceil]; push_cast; linarith
  have h3 : ⌈(w / 2) * 10⌉ < ⌈w * 10⌉ := by
    rcases le_or_lt (1/5 : ℚ) w with hc | hc
    · have hle := Int.le_ceil (w * 10)
      have hstep : (w / 2) * 10 ≤ ((⌈w * 10⌉ - 1 : ℤ) : ℚ) := by
        push_cast; linarith
      have := Int.ceil_le.mpr hstep
      omega
    · have hup : ⌈w * 10⌉ ≤ 2 := Int.ceil_le.mpr (by push_cast; linarith)
      have hlow : ⌈(w / 2) * 10⌉ ≤ 1 := Int.ceil_le.mpr (by push_cast; linarith)
      omega
  omega

/-- The `while u - l > 0.1` loop of the binary-search sizers.  `med` carries the
last midpoint computed (`none` before the first iteration, matching the Python
variable being unbound).  Returns the exit values `(l, u, med)`. -/
def bsLoop (sim : ℚ → Bool) (l u : ℚ) (med : Option ℚ) : ℚ × ℚ × Option ℚ :=
  if h : u - l > 1/10 then
    if sim ((u + l) / 2) then bsLoop sim l ((u + l) / 2) (some ((u + l) / 2))
    else bsLoop sim ((u + l) / 2) u (some ((u + l) / 2))
  else (l, u, med)
termination_by (⌈(u - l) * 10⌉).toNat
decreasing_by
  · have hr : (u + l) / 2 - l = (u - l) / 2 := by ring
    rw [hr]; exact ceil_half_lt h
  · have hr : u - (u + l) / 2 = (u - l) / 2 := by ring
    rw [hr]; exact ceil_half_lt h

/-- The list of candidate capacities (midpoints) tested by the binary-search
loop, in order. -/
def bsTrace (sim : ℚ → Bool) (l u : ℚ) : List ℚ :=
  if h : u - l > 1/10 then
    if sim ((u + l) / 2) then (u + l) / 2 :: bsTrace sim l ((u + l) / 2)
    else (u + l) / 2 :: bsTrace sim ((u + l) / 2) u
  else []
termination_by (⌈(u - l) * 10⌉).toNat
decreasing_by
  · have hr : (u + l) / 2 - l = (u - l) / 2 := by ring
    rw [hr]; exact ceil_half_lt h
  · have hr : u - (u + l) / 2 = (u - l) / 2 := by ring
    rw [hr]; exact ceil_half_lt h

/-- `calculate_247_battery_capacity_b1_sim`: binary search over `[0, max_bsize]`
with fresh `Battery(med, med)` instances; `none` models the `np.nan` sentinel. -/
def calculate_247_battery_capacity_b1_sim (series : List (ℚ × ℚ)) (max_bsize : ℚ) :
    Option ℚ :=
  if sim_battery_247 series ⟨0, 0⟩ then some 0
  else
    let r := bsLoop (fun c => sim_battery_247 series ⟨c, c⟩) 0 max_bsize none
    if r.2.1 = max_bsize then none else r.2.2

/-- `calculate_247_battery_capacity_b2_sim`: same search with fresh
`Battery2(med, med)` instances (default coefficients). -/
def calculate_247_battery_capacity_b2_sim (series : List (ℚ × ℚ)) (max_bsize : ℚ) :
    Option ℚ :=
  if sim_battery_247_b2 series (mkBattery2 0 0) then some 0
  else
    let r := bsLoop (fun c => sim_battery_247_b2 series (mkBattery2 c c)) 0 max_bsize none
    if r.2.1 = max_bsize then none else r.2.2

lemma bsLoop_bounds (sim : ℚ → Bool) (l u : ℚ) (med : Option ℚ) :
    l ≤ u →
      l ≤ (bsLoop sim l u med).1 ∧
      (bsLoop sim l u med).1 ≤ (bsLoop sim l u med).2.1 ∧
      (bsLoop sim l u med).2.1 ≤ u ∧
      (bsLoop sim l u med).2.1 - (bsLoop sim l u med).1 ≤ 1/10 := by
  induction l, u, med using bsLoop.induct sim with
  | case1 l u med h hs ih =>
    intro hlu
    rw [bsLoop.eq_def, dif_pos h, if_pos hs]
    obtain ⟨a, b, c, d⟩ := ih (by linarith)
    exact ⟨a, b, by linarith, d⟩
  | case2 l u med h hs ih =>
    intro hlu
    rw [bsLoop.eq_def, dif_pos h, if_neg hs]
    obtain ⟨a, b, c, d⟩ := ih (by linarith)
    exact ⟨by linarith, b, c, d⟩
  | case3 l u med h =>
    intro hlu
    rw [bsLoop.eq_def, dif_neg h]
    exact ⟨le_refl l, hlu, le_refl u, by linarith⟩

lemma bsLoop_low (sim : ℚ → Bool) (l u : ℚ) (med : Option ℚ) :
    sim l = false → sim (bsLoop sim l u med).1 = false := by
  induction l, u, med using bsLoop.induct sim with
  | case1 l u med h hs ih =>
    intro hl
    rw [bsLoop.eq_def, dif_pos h, if_pos hs]
    exact ih hl
  | case2 l u med h hs ih =>
    intro hl
    rw [bsLoop.eq_def, dif_pos h, if_neg hs]
    exact ih (by simpa using hs)
  | case3 l u med h =>
    intro hl
    rw [bsLoop.eq_def, dif_neg h]
    exact hl

lemma bsLoop_high (sim : ℚ → Bool) (l u : ℚ) (med : Option ℚ) :
    (bsLoop sim l u med).2.1 ≠ u → sim (bsLoop sim l u med).2.1 = true := by
  induction l, u, med using bsLoop.induct sim with
  | case1 l u med h hs ih =>
    intro _
    rw [bsLoop.eq_def, dif_pos h, if_pos hs]
    by_cases hne : (bsLoop sim l ((u + l) / 2) (some ((u + l) / 2))).2.1 = (u + l) / 2
    · rw [hne]; exact hs
    · exact ih hne
  | case2 l u med h hs ih =>
    intro hne
    rw [bsLoop.eq_def, dif_pos h, if_neg hs]
    rw [bsLoop.eq_def, dif_pos h, if_neg hs] at hne
    exact ih hne
  | case3 l u med h =>
    intro hne
    rw [bsLoop.eq_def, dif_neg h] at hne ⊢
    exact absurd rfl hne

lemma bsLoop_top_iff (sim : ℚ → Bool) (l u : ℚ) (med : Option ℚ) :
    (bsLoop sim l u med).2.1 = u ↔ ∀ m ∈ bsTrace sim l u, sim m = false := by
  induction l, u, med using bsLoop.induct sim with
  | case1 l u med h hs ih =>
    rw [bsLoop.eq_def, dif_pos h, if_pos hs, bsTrace.eq_def, dif_pos h, if_pos hs]
    have hb := (bsLoop_bounds sim l ((u + l) / 2) (some ((u + l) / 2)) (by linarith)).2.1
    have hb2 := (bsLoop_bounds sim l ((u + l) / 2) (some ((u + l) / 2)) (by linarith)).2.2.1
    constructor
    · intro he
      exfalso
      have : (bsLoop sim l ((u + l) / 2) (some ((u + l) / 2))).2.1 ≤ (u + l) / 2 := hb2
      rw [he] at this
      linarith
    · intro hall
      exfalso
      have := hall ((u + l) / 2) (List.mem_cons_self _ _)
      rw [hs] at this
      exact Bool.true_eq_false.mp this
  | case2 l u med h hs ih =>
    rw [bsLoop.eq_def, dif_pos h, if_neg hs, bsTrace.eq_def, dif_pos h, if_neg hs]
    rw [ih]
    constructor
    · intro hall m hm
      rcases List.mem_cons.mp hm with hm | hm
      · subst hm; simpa using hs
      · exact hall m hm
    · intro hall m hm
      exact hall m (List.mem_cons_of_mem _ hm)
  | case3 l u med h =>
    rw [bsLoop.eq_def, dif_neg h, bsTrace.eq_def, dif_neg h]
    simp

lemma bsTrace_nil (sim : ℚ → Bool) (l u : ℚ) (med : Option ℚ) :
    bsTrace sim l u = [] → bsLoop sim l u med = (l, u, med) := by
  intro ht
  by_cases h : u - l > 1/10
  · exfalso
    rw [bsTrace.eq_def, dif_pos h] at ht
    by_cases hs : sim ((u + l) / 2) = true
    · rw [if_pos hs] at ht; exact List.cons_ne_nil _ _ ht
    · rw [if_neg hs] at ht; exact List.cons_ne_nil _ _ ht
  · rw [bsLoop.eq_def, dif_neg h]

lemma bsLoop_med_last (sim : ℚ → Bool) (l u : ℚ) (med : Option ℚ) :
    ∀ m, (bsTrace sim l u).getLast? = some m → (bsLoop sim l u med).2.2 = some m := by
  induction l, u, med using bsLoop.induct sim with
  | case1 l u med h hs ih =>
    intro m hm
    rw [bsTrace.eq_def, dif_pos h, if_pos hs] at hm
    rw [bsLoop.eq_def, dif_pos h, if_pos hs]
    rcases ht : bsTrace sim l ((u + l) / 2) with _ | ⟨b, t⟩
    · rw [ht] at hm
      simp at hm
      rw [bsTrace_nil sim l ((u + l) / 2) (some ((u + l) / 2)) ht, hm]
    · rw [ht, List.getLast?_cons_cons] at hm
      rw [← ht] at hm
      exact ih m hm
  | case2 l u med h hs ih =>
    intro m hm
    rw [bsTrace.eq_def, dif_pos h, if_neg hs] at hm
    rw [bsLoop.eq_def, dif_pos h, if_neg hs]
    rcases ht : bsTrace sim ((u + l) / 2) u with _ | ⟨b, t⟩
    · rw [ht] at hm
      simp at hm
      rw [bsTrace_nil sim ((u + l) / 2) u (some ((u + l) / 2)) ht, hm]
    · rw [ht, List.getLast?_cons_cons] at hm
      rw [← ht] at hm
      exact ih m hm
  | case3 l u med h =>
    intro m hm
    rw [bsTrace.eq_def, dif_neg h] at hm
    simp at hm

lemma bsLoop_med_mem (sim : ℚ → Bool) (l u : ℚ) (med : Option ℚ) :
    (¬(u - l > 1/10) ∧ bsLoop sim l u med = (l, u, med)) ∨
    (∃ m, (bsLoop sim l u med).2.2 = some m ∧
      (m = (bsLoop sim l u med).1 ∨ m = (bsLoop sim l u med).2.1)) := by
  induction l, u, med using bsLoop.induct sim with
  | case1 l u med h hs ih =>
    right
    rw [bsLoop.eq_def, dif_pos h, if_pos hs]
    rcases ih with ⟨_, heq⟩ | ⟨m, hm, hor⟩
    · exact ⟨(u + l) / 2, by rw [heq], by rw [heq]; right; rfl⟩
    · exact ⟨m, hm, hor⟩
  | case2 l u med h hs ih =>
    right
    rw [bsLoop.eq_def, dif_pos h, if_neg hs]
    rcases ih with ⟨_, heq⟩ | ⟨m, hm, hor⟩
    · exact ⟨(u + l) / 2, by rw [heq], by rw [heq]; left; rfl⟩
    · exact ⟨m, hm, hor⟩
  | case3 l u med h =>
    left
    rw [bsLoop.eq_def, dif_neg h]
    exact ⟨h, rfl⟩

/-- IEEE-style `!=` on floats-with-NaN (`none` = `np.nan`): any comparison
involving NaN reports "not equal", including `nan != nan`. -/
def fne : Option ℚ → Option ℚ → Bool
  | some a, some b => a != b
  | _, _ => true

/-- Python `max(x, c)` where `x` may be `np.nan`: `max` keeps the first
argument unless the second compares greater, and `c > nan` is false, so a NaN
first argument is kept. -/
def fmaxs : Option ℚ → ℚ → Option ℚ
  | none, _ => none
  | some a, c => some (if c > a then c else a)

/-- Loop state of `calculate_247_battery_capacity`: the running answer
`battery_cap` (NaN = `none`), the rolling 72-step accumulator, and the
lossless battery. -/
structure CState where
  battery_cap : Option ℚ
  daily_net_load : ℚ
  b : Battery
  deriving DecidableEq, Repr

/-- The battery update of one step of `calculate_247_battery_capacity`
(the three-way deficit branch and the surplus branch). -/
def battery_step (ren dc : ℚ) (b : Battery) : Battery :=
  if dc > ren then
    if b.capacity = 0 then b.find_and_init_capacity (dc - ren)
    else if b.current_load = 0 then b.find_and_init_capacity (dc - ren)
    else
      let b1 := (b.discharge (dc - ren)).1
      if b1.current_load = 0 then b1.find_and_init_capacity ((dc - ren) - b.current_load)
      else b1
  else
    if b.capacity > 0 then (b.charge (ren - dc)).1
    else if b.is_full then ⟨0, 0⟩
    else b

/-- The running-maximum update of `battery_cap`
(`if b.capacity > 0 and battery_cap != np.nan`). -/
def cap_step (bcap : Option ℚ) (b : Battery) : Option ℚ :=
  if b.capacity > 0 ∧ fne bcap none = true then fmaxs bcap b.capacity else bcap

/-- One full iteration of the `calculate_247_battery_capacity` loop; `none`
means the iteration assigned the NaN sentinel and broke out of the loop. -/
def calc_step (ren dc : ℚ) (i : ℕ) (s : CState) : Option CState :=
  let daily := s.daily_net_load + (ren - dc)
  let b := battery_step ren dc s.b
  let bcap := cap_step s.battery_cap b
  if (i + 1) % 72 = 0 then
    if daily < 0 then none
    else some ⟨bcap, 0, b⟩
  else some ⟨bcap, daily, b⟩

/-- The loop of `calculate_247_battery_capacity` over the remaining series,
`i` being the index of the next step. -/
def calcLoop : List (ℚ × ℚ) → ℕ → CState → Option ℚ
  | [], _, s => s.battery_cap
  | (ren, dc) :: rest, i, s =>
    match calc_step ren dc i s with
    | none => none
    | some s' => calcLoop rest (i + 1) s'

/-- `calculate_247_battery_capacity`: the incremental capacity finder;
starts from `battery_cap = 0`, empty accumulator, and `Battery(0)`. -/
def calculate_247_battery_capacity (series : List (ℚ × ℚ)) : Option ℚ :=
  calcLoop series 0 ⟨some 0, 0, ⟨0, 0⟩⟩

/-- The loop of `apply_battery`: walks the series accumulating the
non-renewable energy the battery cannot cover. -/
def applyLoop : List (ℚ × ℚ) → Battery2 → ℚ → ℚ
  | [], _, tot => tot
  | (ren, dc) :: rest, b, tot =>
    let gap := dc - ren
    if gap > 0 then
      let r := b.discharge gap
      applyLoop rest r.1 (tot + gap - r.2)
    else applyLoop rest (b.charge (-gap)).1 tot

/-- `apply_battery`: constructs a full lossy battery
(`Battery2(capacity, capacity)`) and returns the total uncovered energy. -/
def apply_battery (battery_capacity : ℚ) (series : List (ℚ × ℚ)) : ℚ :=
  applyLoop series (mkBattery2 battery_capacity battery_capacity) 0

/-- The sum over the series of the positive deficits
`max (draw - renewable) 0`; used to state C6 and C8. -/
def pos_deficit_sum : List (ℚ × ℚ) → ℚ
  | [] => 0
  | (ren, dc) :: rest => max (dc - ren) 0 + pos_deficit_sum rest

/-- C1: for every lossless `Battery` with `0 ≤ current_load ≤ capacity` and
every non-negative argument, a single `charge` or `discharge` call preserves
`0 ≤ current_load ≤ capacity`. -/
theorem c1_lossless_battery_invariant (b : Battery) (x y : ℚ)
    (h0 : 0 ≤ b.current_load) (h1 : b.current_load ≤ b.capacity)
    (hx : 0 ≤ x) (hy : 0 ≤ y) :
    (0 ≤ ((b.charge x).1).current_load ∧
      ((b.charge x).1).current_load ≤ ((b.charge x).1).capacity) ∧
    (0 ≤ ((b.discharge y).1).current_load ∧
      ((b.discharge y).1).current_load ≤ ((b.discharge y).1).capacity) := by
  constructor
  · by_cases hc : b.current_load + x > b.capacity
    · simp only [Battery.charge, if_pos hc]
      exact ⟨by linarith, le_refl _⟩
    · simp only [Battery.charge, if_neg hc]
      exact ⟨by linarith, by linarith⟩
  · by_cases hd : b.current_load - y < 0
    · simp only [Battery.discharge, if_pos hd]
      exact ⟨le_refl _, by linarith⟩
    · simp only [Battery.discharge, if_neg hd]
      exact ⟨by linarith, by linarith⟩

theorem c1_witness :
    (0 ≤ (((Battery.mk 3 1).charge 5).1).current_load ∧
      (((Battery.mk 3 1).charge 5).1).current_load
        ≤ (((Battery.mk 3 1).charge 5).1).capacity) ∧
    (0 ≤ (((Battery.mk 3 1).discharge 2).1).current_load ∧
      (((Battery.mk 3 1).discharge 2).1).current_load
        ≤ (((Battery.mk 3 1).discharge 2).1).capacity) :=
  c1_lossless_battery_invariant ⟨3, 1⟩ 5 2 (by norm_num) (by norm_num)
    (by norm_num) (by norm_num)

/-- C2: for every `Battery2` constructed with the default coefficients, a
non-negative capacity, `0 ≤ current_load ≤ capacity`, and any non-negative
argument, `charge` and `discharge` preserve `0 ≤ current_load ≤ capacity`
without clamping: `calc_max_charge` / `calc_max_discharge` analytically
prevent overflow and underflow. -/
theorem c2_battery2_default_invariant (cap load x : ℚ)
    (hcap : 0 ≤ cap) (h0 : 0 ≤ load) (h1 : load ≤ cap) (hx : 0 ≤ x) :
    (0 ≤ (((mkBattery2 cap load).charge x).1).current_load ∧
      (((mkBattery2 cap load).charge x).1).current_load
        ≤ (((mkBattery2 cap load).charge x).1).capacity) ∧
    (0 ≤ (((mkBattery2 cap load).discharge x).1).current_load ∧
      (((mkBattery2 cap load).discharge x).1).current_load
        ≤ (((mkBattery2 cap load).discharge x).1).capacity) := by
  have e1 : (mkBattery2 cap load).calc_max_charge
      = min (cap * (50/49)) ((cap - load) * (200/221)) := by
    show min (cap / (49/50)) ((1 * cap - load) / (49/50 - -(1/8)))
        = min (cap * (50/49)) ((cap - load) * (200/221))
    have d1 : cap / ((49:ℚ)/50) = cap * (50/49) := by
      rw [div_eq_mul_inv]; norm_num
    have d2 : (1 * cap - load) / ((49:ℚ)/50 - -(1/8)) = (cap - load) * (200/221) := by
      rw [show ((49:ℚ)/50 - -(1/8)) = 221/200 by norm_num, div_eq_mul_inv]
      norm_num
    rw [d1, d2]
  have e2 : (mkBattery2 cap load).calc_max_discharge
      = min (cap * (20/21)) (load * (10/11)) := by
    show min (cap / (21/20)) ((load - 0 * cap) / (1/20 + 21/20))
        = min (cap * (20/21)) (load * (10/11))
    have d1 : cap / ((21:ℚ)/20) = cap * (20/21) := by
      rw [div_eq_mul_inv]; norm_num
    have d2 : (load - 0 * cap) / ((1:ℚ)/20 + 21/20) = load * (10/11) := by
      rw [show ((1:ℚ)/20 + 21/20) = 11/10 by norm_num, div_eq_mul_inv]
      norm_num
    rw [d1, d2]
  constructor
  · have hm0 : 0 ≤ min ((mkBattery2 cap load).calc_max_charge) x := by
      rw [e1]
      have : (0:ℚ) ≤ min (cap * (50/49)) ((cap - load) * (200/221)) :=
        le_min (by nlinarith) (by nlinarith)
      exact le_min this hx
    have hmle : min ((mkBattery2 cap load).calc_max_charge) x
        ≤ (cap - load) * (200/221) := by
      rw [e1]
      exact le_trans (min_le_left _ _) (le_trans (min_le_right _ _) (le_refl _))
    simp only [Battery2.charge]
    constructor
    · show 0 ≤ load + min ((mkBattery2 cap load).calc_max_charge) x * (49/50)
      nlinarith
    · show load + min ((mkBattery2 cap load).calc_max_charge) x * (49/50) ≤ cap
      nlinarith
  · have hm0 : 0 ≤ min ((mkBattery2 cap load).calc_max_discharge) x := by
      rw [e2]
      have : (0:ℚ) ≤ min (cap * (20/21)) (load * (10/11)) :=
        le_min (by nlinarith) (by nlinarith)
      exact le_min this hx
    have hmle : min ((mkBattery2 cap load).calc_max_discharge) x
        ≤ load * (10/11) := by
      rw [e2]
      exact le_trans (min_le_left _ _) (min_le_right _ _)
    simp only [Battery2.discharge]
    constructor
    · show 0 ≤ load - min ((mkBattery2 cap load).calc_max_discharge) x * (21/20)
      nlinarith
    · show load - min ((mkBattery2 cap load).calc_max_discharge) x * (21/20) ≤ cap
      nlinarith

theorem c2_witness :
    (0 ≤ (((mkBattery2 2 1).charge 1).1).current_load ∧
      (((mkBattery2 2 1).charge 1).1).current_load
        ≤ (((mkBattery2 2 1).charge 1).1).capacity) ∧
    (0 ≤ (((mkBattery2 2 1).discharge 1).1).current_load ∧
      (((mkBattery2 2 1).discharge 1).1).current_load
        ≤ (((mkBattery2 2 1).discharge 1).1).capacity) :=
  c2_battery2_default_invariant 2 1 1 (by norm_num) (by norm_num)
    (by norm_num) (by norm_num)

/-- C3: `Battery2.discharge` removes `min(calc_max_discharge(), output_load) * eff_d`
from the stored load (with `calc_max_discharge` computed from the pre-call
state), returns `calc_max_discharge` on partial discharge and `output_load`
otherwise, and the returned value is the pre-efficiency requested amount: the
amount actually removed from storage is the return value times `eff_d`. -/
theorem c3_battery2_discharge_behaviour (b : Battery2) (x : ℚ) :
    ((b.discharge x).1.current_load
      = b.current_load - min b.calc_max_discharge x * b.eff_d) ∧
    ((b.discharge x).2
      = if b.calc_max_discharge < x then b.calc_max_discharge else x) ∧
    ((b.discharge x).1.capacity = b.capacity) ∧
    (b.current_load - (b.discharge x).1.current_load = (b.discharge x).2 * b.eff_d) := by
  refine ⟨rfl, rfl, rfl, ?_⟩
  simp only [Battery2.discharge]
  rcases lt_or_ge b.calc_max_discharge x with h | h
  · rw [if_pos h, min_eq_left h.le]; ring
  · rw [if_neg (not_lt.mpr h), min_eq_right h]; ring

lemma fiLoop_default_some (x : ℚ) :
    ∀ (fuel : ℕ) (cap newcap : ℚ), (11/10) * x ≤ newcap + (1/10) * (fuel : ℚ) →
      ∃ c nc, fiLoop (1/20) 0 (21/20) x (fuel + 1) cap newcap = some (c, nc) := by
  intro fuel
  induction fuel with
  | zero =>
    intro cap newcap hle
    refine ⟨cap, newcap, ?_⟩
    show (if (newcap - 0 * cap) / (1/20 + 21/20) < x then
        fiLoop (1/20) 0 (21/20) x 0 (cap + 1/10) (newcap + 1/10)
      else some (cap, newcap)) = some (cap, newcap)
    rw [if_neg]
    push_neg
    rw [show (newcap - 0 * cap) = newcap by ring,
      show ((1:ℚ)/20 + 21/20) = 11/10 by norm_num,
      le_div_iff₀ (by norm_num : (0:ℚ) < 11/10)]
    push_cast at hle
    linarith
  | succ n ih =>
    intro cap newcap hle
    rw [show fiLoop (1/20) 0 (21/20) x (n + 1 + 1) cap newcap
        = if (newcap - 0 * cap) / (1/20 + 21/20) < x then
            fiLoop (1/20) 0 (21/20) x (n + 1) (cap + 1/10) (newcap + 1/10)
          else some (cap, newcap) from rfl]
    by_cases hc : (newcap - 0 * cap) / (1/20 + 21/20) < x
    · rw [if_pos hc]
      apply ih
      push_cast at hle ⊢
      linarith
    · rw [if_neg hc]
      exact ⟨cap, newcap, rfl⟩

lemma fiLoop_some_shape (lu lv ed x : ℚ) :
    ∀ (fuel : ℕ) (cap newcap c nc : ℚ),
      fiLoop lu lv ed x fuel cap newcap = some (c, nc) →
      ∃ k : ℕ, k < fuel ∧ c = cap + (k : ℚ) * (1/10) ∧ nc = newcap + (k : ℚ) * (1/10) ∧
        ¬((nc - lv * c) / (lu + ed) < x) := by
  intro fuel
  induction fuel with
  | zero => intro cap newcap c nc h; exact absurd h (by simp [fiLoop])
  | succ n ih =>
    intro cap newcap c nc h
    rw [show fiLoop lu lv ed x (n + 1) cap newcap
        = if (newcap - lv * cap) / (lu + ed) < x then
            fiLoop lu lv ed x n (cap + 1/10) (newcap + 1/10)
          else some (cap, newcap) from rfl] at h
    by_cases hc : (newcap - lv * cap) / (lu + ed) < x
    · rw [if_pos hc] at h
      obtain ⟨k, hk, h1, h2, hcond⟩ := ih _ _ _ _ h
      refine ⟨k + 1, by omega, by push_cast; linarith, by push_cast; linarith, hcond⟩
    · rw [if_neg hc] at h
      simp only [Option.some.injEq, Prod.mk.injEq] at h
      refine ⟨0, by omega, by rw [← h.1]; push_cast; ring, by rw [← h.2]; push_cast; ring, ?_⟩
      rw [← h.1, ← h.2]
      exact hc

/-- C9: for every `Battery2` with the default coefficients and every
non-negative `input_load`, `find_and_init_capacity` terminates: it first adds
`input_load * eff_d` to `capacity` and then performs at most `⌈input_load/2⌉`
increments of 0.1 (one per unit of remaining shortfall divided by the 0.1
step), stopping as soon as the inline rate check no longer reports
`power_lim < input_load`. -/
theorem c9_find_and_init_capacity_terminates (cap load x : ℚ) (hx : 0 ≤ x) :
    ∃ (b' : Battery2) (k : ℕ),
      k ≤ (⌈x / 2⌉).toNat ∧
      (mkBattery2 cap load).find_and_init_capacity x ((⌈x / 2⌉).toNat + 1) = some b' ∧
      b'.capacity = cap + x * (21/20) + (k : ℚ) * (1/10) ∧
      ¬((x * (21/20) + (k : ℚ) * (1/10) - 0 * b'.capacity) / (1/20 + 21/20) < x) := by
  have hN : (11/10) * x ≤ x * (21/20) + (1/10) * (((⌈x / 2⌉).toNat : ℕ) : ℚ) := by
    have h1 : (x / 2 : ℚ) ≤ ((⌈x / 2⌉ : ℤ) : ℚ) := Int.le_ceil _
    have h0 : (0 : ℤ) ≤ ⌈x / 2⌉ := Int.ceil_nonneg (by linarith)
    have h2 : (((⌈x / 2⌉).toNat : ℕ) : ℚ) = ((⌈x / 2⌉ : ℤ) : ℚ) := by
      exact_mod_cast congrArg (fun z : ℤ => (z : ℚ)) (Int.toNat_of_nonneg h0)
    rw [h2]; linarith
  obtain ⟨c, nc, hloop⟩ :=
    fiLoop_default_some x ((⌈x / 2⌉).toNat) (cap + x * (21/20)) (x * (21/20)) hN
  obtain ⟨k, hk, h1, h2, hcond⟩ := fiLoop_some_shape _ _ _ _ _ _ _ _ _ hloop
  refine ⟨{ mkBattery2 cap load with capacity := c }, k, by omega, ?_, ?_, ?_⟩
  · show (match fiLoop (1/20) 0 (21/20) x ((⌈x / 2⌉).toNat + 1)
        (cap + x * (21/20)) (x * (21/20)) with
      | none => none
      | some (c, _) => some { mkBattery2 cap load with capacity := c }) = _
    rw [hloop]
  · show c = cap + x * (21/20) + (k : ℚ) * (1/10)
    rw [h1]
  · show ¬((x * (21/20) + (k : ℚ) * (1/10) - 0 * c) / (1/20 + 21/20) < x)
    rw [show x * (21/20) + (k : ℚ) * (1/10) = nc from by rw [h2]]
    exact hcond

theorem c9_witness :
    ∃ (b' : Battery2) (k : ℕ),
      k ≤ (⌈(1:ℚ) / 2⌉).toNat ∧
      (mkBattery2 0 0).find_and_init_capacity 1 ((⌈(1:ℚ) / 2⌉).toNat + 1) = some b' ∧
      b'.capacity = 0 + 1 * (21/20) + (k : ℚ) * (1/10) ∧
      ¬((1 * (21/20) + (k : ℚ) * (1/10) - 0 * b'.capacity) / (1/20 + 21/20) < 1) :=
  c9_find_and_init_capacity_terminates 0 0 1 (by norm_num)

/-- C7: in `calculate_247_battery_capacity`, at every index `i` with
`(i + 1) % 72 == 0`, if the net load accumulated since the last window
boundary is negative the function assigns the NaN sentinel and stops,
returning that sentinel; otherwise it resets the window accumulator to zero
and continues with the next step. -/
theorem c7_window_infeasibility (ren dc : ℚ) (rest : List (ℚ × ℚ)) (i : ℕ)
    (s : CState) (hb : (i + 1) % 72 = 0) :
    (s.daily_net_load + (ren - dc) < 0 → calcLoop ((ren, dc) :: rest) i s = none) ∧
    (0 ≤ s.daily_net_load + (ren - dc) →
      calcLoop ((ren, dc) :: rest) i s
        = calcLoop rest (i + 1)
            ⟨cap_step s.battery_cap (battery_step ren dc s.b), 0,
              battery_step ren dc s.b⟩) := by
  constructor
  · intro hneg
    have hstep : calc_step ren dc i s = none := by
      simp only [calc_step]
      rw [if_pos hb, if_pos hneg]
    simp only [calcLoop, hstep]
  · intro hpos
    have hstep : calc_step ren dc i s
        = some ⟨cap_step s.battery_cap (battery_step ren dc s.b), 0,
            battery_step ren dc s.b⟩ := by
      simp only [calc_step]
      rw [if_pos hb, if_neg (not_lt.mpr hpos)]
    simp only [calcLoop, hstep]

theorem c7_witness :
    ((⟨some 0, 0, ⟨0, 0⟩⟩ : CState).daily_net_load + (0 - 1) < 0 →
      calcLoop [(0, 1)] 71 ⟨some 0, 0, ⟨0, 0⟩⟩ = none) ∧
    (0 ≤ (⟨some 0, 0, ⟨0, 0⟩⟩ : CState).daily_net_load + (0 - 1) →
      calcLoop [(0, 1)] 71 ⟨some 0, 0, ⟨0, 0⟩⟩
        = calcLoop [] (71 + 1)
            ⟨cap_step (⟨some 0, 0, ⟨0, 0⟩⟩ : CState).battery_cap
                (battery_step 0 1 (⟨some 0, 0, ⟨0, 0⟩⟩ : CState).b), 0,
              battery_step 0 1 (⟨some 0, 0, ⟨0, 0⟩⟩ : CState).b⟩) :=
  c7_window_infeasibility 0 1 [] 71 ⟨some 0, 0, ⟨0, 0⟩⟩ (by norm_num)

/-- The invariant of C10: `battery_cap` carries an actual non-negative number
(not the NaN sentinel), and the working battery has non-negative capacity. -/
def CapInv (s : CState) : Prop :=
  (∃ q, s.battery_cap = some q ∧ 0 ≤ q) ∧ 0 ≤ s.b.capacity

lemma battery_step_capacity_nonneg (ren dc : ℚ) (b : Battery)
    (hb : 0 ≤ b.capacity) : 0 ≤ (battery_step ren dc b).capacity := by
  unfold battery_step
  by_cases h1 : dc > ren
  · rw [if_pos h1]
    by_cases h2 : b.capacity = 0
    · rw [if_pos h2]
      show 0 ≤ b.capacity + (dc - ren)
      linarith
    · rw [if_neg h2]
      by_cases h3 : b.current_load = 0
      · rw [if_pos h3]
        show 0 ≤ b.capacity + (dc - ren)
        linarith
      · rw [if_neg h3]
        have hcap : (b.discharge (dc - ren)).1.capacity = b.capacity := by
          simp only [Battery.discharge]
          split <;> rfl
        by_cases h4 : (b.discharge (dc - ren)).1.current_load = 0
        · rw [if_pos h4]
          show 0 ≤ (b.discharge (dc - ren)).1.capacity + ((dc - ren) - b.current_load)
          have hge : b.current_load ≤ dc - ren := by
            by_cases h5 : b.current_load - (dc - ren) < 0
            · linarith
            · have he : (b.discharge (dc - ren)).1.current_load
                  = b.current_load - (dc - ren) := by
                simp only [Battery.discharge]
                rw [if_neg h5]
              rw [he] at h4
              linarith
          rw [hcap]
          linarith
        · rw [if_neg h4, hcap]
          exact hb
  · rw [if_neg h1]
    by_cases h2 : b.capacity > 0
    · rw [if_pos h2]
      have hcap : (b.charge (ren - dc)).1.capacity = b.capacity := by
        simp only [Battery.charge]
        split <;> rfl
      rw [hcap]
      exact hb
    · rw [if_neg h2]
      by_cases h3 : b.is_full = true
      · rw [if_pos h3]
      · rw [if_neg h3]
        exact hb

lemma cap_step_some (bcap : Option ℚ) (b : Battery) (q : ℚ) (hq : bcap = some q)
    (h0 : 0 ≤ q) (hb : 0 ≤ b.capacity) :
    ∃ q', cap_step bcap b = some q' ∧ 0 ≤ q' := by
  subst hq
  unfold cap_step
  by_cases hc : b.capacity > 0 ∧ fne (some q) none = true
  · rw [if_pos hc]
    show ∃ q', fmaxs (some q) b.capacity = some q' ∧ 0 ≤ q'
    by_cases hgt : b.capacity > q
    · refine ⟨b.capacity, ?_, hb⟩
      show some (if b.capacity > q then b.capacity else q) = some b.capacity
      rw [if_pos hgt]
    · refine ⟨q, ?_, h0⟩
      show some (if b.capacity > q then b.capacity else q) = some q
      rw [if_neg hgt]
  · rw [if_neg hc]
    exact ⟨q, rfl, h0⟩

lemma calc_step_inv (ren dc : ℚ) (i : ℕ) (s : CState) (h : CapInv s) :
    calc_step ren dc i s = none ∨
    ∃ s', calc_step ren dc i s = some s' ∧ CapInv s' := by
  obtain ⟨⟨q, hq, h0⟩, hb⟩ := h
  have hb' := battery_step_capacity_nonneg ren dc s.b hb
  obtain ⟨q', hq', h0'⟩ := cap_step_some s.battery_cap (battery_step ren dc s.b) q hq h0 hb'
  unfold calc_step
  by_cases h72 : (i + 1) % 72 = 0
  · rw [if_pos h72]
    by_cases hneg : s.daily_net_load + (ren - dc) < 0
    · rw [if_pos hneg]
      left
      rfl
    · rw [if_neg hneg]
      right
      exact ⟨_, rfl, ⟨q', hq', h0'⟩, hb'⟩
  · rw [if_neg h72]
    right
    exact ⟨_, rfl, ⟨q', hq', h0'⟩, hb'⟩

lemma calcLoop_inv (series : List (ℚ × ℚ)) : ∀ (i : ℕ) (s : CState), CapInv s →
    calcLoop series i s = none ∨ ∃ q, calcLoop series i s = some q ∧ 0 ≤ q := by
  induction series with
  | nil =>
    intro i s hs
    obtain ⟨⟨q, hq, h0⟩, _⟩ := hs
    right
    exact ⟨q, by simp only [calcLoop]; exact hq, h0⟩
  | cons p rest ih =>
    intro i s hs
    obtain ⟨ren, dc⟩ := p
    rcases calc_step_inv ren dc i s hs with hnone | ⟨s', hs', hinv⟩
    · left
      simp only [calcLoop, hnone]
    · simp only [calcLoop, hs']
      exact ih (i + 1) s' hinv

/-- C10: in `calculate_247_battery_capacity`, the running maximum
`battery_cap` is never the NaN sentinel at the start of a loop iteration:
one loop step starting from a state whose `battery_cap` is a non-negative
number either breaks with the sentinel or reaches another such state (so
`max(battery_cap, b.capacity)` is never evaluated with a NaN operand), and
the function's return value is either the sentinel or a non-negative
number. -/
theorem c10_battery_cap_never_nan :
    (∀ (ren dc : ℚ) (i : ℕ) (s : CState), CapInv s →
      calc_step ren dc i s = none ∨
      ∃ s', calc_step ren dc i s = some s' ∧ CapInv s') ∧
    (∀ series, calculate_247_battery_capacity series = none ∨
      ∃ q, calculate_247_battery_capacity series = some q ∧ 0 ≤ q) := by
  refine ⟨calc_step_inv, fun series => ?_⟩
  exact calcLoop_inv series 0 ⟨some 0, 0, ⟨0, 0⟩⟩ ⟨⟨0, rfl, le_refl 0⟩, le_refl 0⟩

theorem c10_witness :
    calc_step 0 1 0 ⟨some 0, 0, ⟨0, 0⟩⟩ = none ∨
    ∃ s', calc_step 0 1 0 ⟨some 0, 0, ⟨0, 0⟩⟩ = some s' ∧ CapInv s' :=
  c10_battery_cap_never_nan.1 0 1 0 ⟨some 0, 0, ⟨0, 0⟩⟩ ⟨⟨0, rfl, le_refl 0⟩, le_refl 0⟩

lemma mkBattery2_zero_discharge (g : ℚ) (hg : 0 < g) :
    (mkBattery2 0 0).discharge g = (mkBattery2 0 0, 0) := by
  have hmd : (mkBattery2 0 0).calc_max_discharge = 0 := by
    show min ((0:ℚ) / (21/20)) ((0 - 0 * 0) / (1/20 + 21/20)) = 0
    norm_num
  simp only [Battery2.discharge, hmd]
  rw [min_eq_left hg.le, if_pos hg]
  show ({ mkBattery2 0 0 with current_load := 0 - 0 * (21/20) }, (0:ℚ)) = (mkBattery2 0 0, 0)
  norm_num
  rfl

lemma mkBattery2_zero_charge (y : ℚ) (hy : 0 ≤ y) :
    ((mkBattery2 0 0).charge y).1 = mkBattery2 0 0 := by
  have hmc : (mkBattery2 0 0).calc_max_charge = 0 := by
    show min ((0:ℚ) / (49/50)) ((1 * 0 - 0) / (49/50 - -(1/8))) = 0
    norm_num
  simp only [Battery2.charge, hmc]
  rw [min_eq_left hy]
  show { mkBattery2 0 0 with current_load := 0 + 0 * (49/50) } = mkBattery2 0 0
  norm_num
  rfl

lemma applyLoop_zero_battery (series : List (ℚ × ℚ)) :
    ∀ t : ℚ, applyLoop series (mkBattery2 0 0) t = t + pos_deficit_sum series := by
  induction series with
  | nil =>
    intro t
    show t = t + 0
    ring
  | cons p rest ih =>
    intro t
    obtain ⟨ren, dc⟩ := p
    by_cases hg : dc - ren > 0
    · have hd := mkBattery2_zero_discharge (dc - ren) hg
      simp only [applyLoop, pos_deficit_sum]
      rw [if_pos hg, hd]
      show applyLoop rest (mkBattery2 0 0) (t + (dc - ren) - 0)
          = t + (max (dc - ren) 0 + pos_deficit_sum rest)
      rw [ih (t + (dc - ren) - 0), max_eq_left hg.le]
      ring
    · have hc := mkBattery2_zero_charge (-(dc - ren)) (by linarith)
      simp only [applyLoop, pos_deficit_sum]
      rw [if_neg hg, hc, ih t, max_eq_right (by linarith)]
      ring

/-- C8: `apply_battery` with `battery_capacity = 0` returns exactly the sum
over all steps of the positive deficits: the zero-capacity lossy battery
delivers nothing at any step. -/
theorem c8_apply_battery_zero_capacity (series : List (ℚ × ℚ))
    (hnn : ∀ p ∈ series, 0 ≤ p.1 ∧ 0 ≤ p.2) :
    apply_battery 0 series = pos_deficit_sum series := by
  show applyLoop series (mkBattery2 0 0) 0 = pos_deficit_sum series
  rw [applyLoop_zero_battery series 0]
  ring

theorem c8_witness :
    apply_battery 0 [(1, 3), (4, 2)] = pos_deficit_sum [(1, 3), (4, 2)] :=
  c8_apply_battery_zero_capacity [(1, 3), (4, 2)] (by norm_num)

/-- C6 (counterexample): the claim fails as stated.  A lossless `Battery` with
capacity 100 but zero stored energy fails the simulation on a series whose
maximum cumulative deficit is 1, and a fully charged default `Battery2` with
capacity 21/20 fails on the same series (rate limiting caps a single-step
discharge at `current_load/1.1 < 1`). -/
theorem c6_counterexample :
    pos_deficit_sum [((0:ℚ), 1)] < 100 ∧
    sim_battery_247 [(0, 1)] ⟨100, 0⟩ = false ∧
    pos_deficit_sum [((0:ℚ), 1)] < 21/20 ∧
    sim_battery_247_b2 [(0, 1)] (mkBattery2 (21/20) (21/20)) = false := by
  refine ⟨by norm_num [pos_deficit_sum], ?_, by norm_num [pos_deficit_sum], ?_⟩
  · norm_num [sim_battery_247, Battery.discharge, Battery.charge]
  · norm_num [sim_battery_247_b2, Battery2.discharge, Battery2.charge, mkBattery2,
      Battery2.calc_max_discharge, Battery2.calc_max_charge]

lemma pos_deficit_sum_nonneg (series : List (ℚ × ℚ)) : 0 ≤ pos_deficit_sum series := by
  induction series with
  | nil => exact le_refl 0
  | cons p rest ih =>
    obtain ⟨ren, dc⟩ := p
    show 0 ≤ max (dc - ren) 0 + pos_deficit_sum rest
    have := le_max_right (dc - ren) 0
    linarith

lemma sim_battery_247_of_deficit_le (series : List (ℚ × ℚ)) :
    ∀ b : Battery, pos_deficit_sum series ≤ b.current_load →
      b.current_load ≤ b.capacity → sim_battery_247 series b = true := by
  induction series with
  | nil => intro b _ _; rfl
  | cons p rest ih =>
    obtain ⟨ren, dc⟩ := p
    intro b hd hbc
    have hr0 := pos_deficit_sum_nonneg rest
    by_cases hn : ren - dc > 0
    · have hmax : max (dc - ren) 0 = 0 := max_eq_right (by linarith)
      rw [show pos_deficit_sum ((ren, dc) :: rest)
          = max (dc - ren) 0 + pos_deficit_sum rest from rfl, hmax] at hd
      simp only [sim_battery_247]
      rw [if_pos hn]
      by_cases hcl : b.current_load + (ren - dc) > b.capacity
      · have h1 : (b.charge (ren - dc)).1.current_load = b.capacity := by
          simp only [Battery.charge]; rw [if_pos hcl]
        have h2 : (b.charge (ren - dc)).1.capacity = b.capacity := by
          simp only [Battery.charge]; rw [if_pos hcl]
        exact ih _ (by rw [h1]; linarith) (by rw [h1, h2])
      · have h1 : (b.charge (ren - dc)).1.current_load
            = b.current_load + (ren - dc) := by
          simp only [Battery.charge]; rw [if_neg hcl]
        have h2 : (b.charge (ren - dc)).1.capacity = b.capacity := by
          simp only [Battery.charge]; rw [if_neg hcl]
        exact ih _ (by rw [h1]; linarith) (by rw [h1, h2]; linarith)
    · have hmax : max (dc - ren) 0 = dc - ren := max_eq_left (by linarith)
      rw [show pos_deficit_sum ((ren, dc) :: rest)
          = max (dc - ren) 0 + pos_deficit_sum rest from rfl, hmax] at hd
      simp only [sim_battery_247]
      rw [if_neg hn]
      have hnn : ¬(b.current_load - -(ren - dc) < 0) := by
        push_neg
        linarith
      have hr2 : (b.discharge (-(ren - dc))).2 = -(ren - dc) := by
        simp only [Battery.discharge]; rw [if_neg hnn]
      have hr1 : (b.discharge (-(ren - dc))).1.current_load
          = b.current_load - -(ren - dc) := by
        simp only [Battery.discharge]; rw [if_neg hnn]
      have hr1c : (b.discharge (-(ren - dc))).1.capacity = b.capacity := by
        simp only [Battery.discharge]; rw [if_neg hnn]
      rw [hr2, if_neg (lt_irrefl _)]
      exact ih _ (by rw [hr1]; linarith) (by rw [hr1, hr1c]; linarith)

/-- C6 (amended): restricted to the lossless `Battery` initialized full
(`current_load = capacity`), the claim holds: if the capacity exceeds the sum
of all positive per-step deficits (the maximum cumulative deficit over the
series), `sim_battery_247` returns success. -/
theorem c6_amended (series : List (ℚ × ℚ)) (c : ℚ)
    (hnn : ∀ p ∈ series, 0 ≤ p.1 ∧ 0 ≤ p.2)
    (hc : pos_deficit_sum series < c) :
    sim_battery_247 series ⟨c, c⟩ = true :=
  sim_battery_247_of_deficit_le series ⟨c, c⟩ (le_of_lt hc) (le_refl c)

theorem c6_witness :
    sim_battery_247 [(0, 1), (3, 1)] ⟨2, 2⟩ = true :=
  c6_amended [(0, 1), (3, 1)] 2 (by norm_num) (by norm_num [pos_deficit_sum])

lemma bsearch_result_near (sim : ℚ → Bool) (U : ℚ) (r : ℚ)
    (h0 : sim 0 = false)
    (hr : (if (bsLoop sim 0 U none).2.1 = U then none
        else (bsLoop sim 0 U none).2.2) = some r) :
    ∃ l u, l ≤ r ∧ r ≤ u ∧ u - l ≤ 1/10 ∧ sim u = true ∧ sim l = false := by
  by_cases hU : (bsLoop sim 0 U none).2.1 = U
  · rw [if_pos hU] at hr
    exact absurd hr (by simp)
  · rw [if_neg hU] at hr
    have hg : U - 0 > 1/10 := by
      by_contra hng
      have heq : bsLoop sim 0 U none = (0, U, none) := by
        rw [bsLoop.eq_def, dif_neg hng]
      rw [heq] at hr
      exact absurd hr (by simp)
    obtain ⟨ha, hb, hc, hd⟩ := bsLoop_bounds sim 0 U none (by linarith)
    rcases bsLoop_med_mem sim 0 U none with ⟨hng, _⟩ | ⟨m, hm, hor⟩
    · exact absurd hg hng
    · rw [hm] at hr
      have hmr : m = r := Option.some.inj hr
      subst hmr
      have hlow := bsLoop_low sim 0 U none h0
      have hhigh := bsLoop_high sim 0 U none hU
      rcases hor with h | h
      · exact ⟨(bsLoop sim 0 U none).1, (bsLoop sim 0 U none).2.1,
          le_of_eq h.symm, by rw [h]; exact hb, by linarith, hhigh, hlow⟩
      · exact ⟨(bsLoop sim 0 U none).1, (bsLoop sim 0 U none).2.1,
          by rw [h]; exact hb, le_of_eq h, by linarith, hhigh, hlow⟩

lemma bsearch_cases (sim : ℚ → Bool) (U : ℚ) :
    ((if (bsLoop sim 0 U none).2.1 = U then none
        else (bsLoop sim 0 U none).2.2) = none
      ↔ (bsLoop sim 0 U none).2.1 = U) ∧
    ((bsLoop sim 0 U none).2.1 = U ↔ ∀ m ∈ bsTrace sim 0 U, sim m = false) ∧
    (∀ r, (if (bsLoop sim 0 U none).2.1 = U then none
        else (bsLoop sim 0 U none).2.2) = some r →
      (bsTrace sim 0 U).getLast? = some r) := by
  refine ⟨?_, bsLoop_top_iff sim 0 U none, ?_⟩
  · constructor
    · intro h
      by_contra hne
      rw [if_neg hne] at h
      rcases bsLoop_med_mem sim 0 U none with ⟨_, heq⟩ | ⟨m, hm, _⟩
      · apply hne
        rw [heq]
      · rw [hm] at h
        exact absurd h (by simp)
    · intro h
      rw [if_pos h]
  · intro r hr
    by_cases hU : (bsLoop sim 0 U none).2.1 = U
    · rw [if_pos hU] at hr
      exact absurd hr (by simp)
    · rw [if_neg hU] at hr
      have hne : bsTrace sim 0 U ≠ [] := by
        intro htr
        have := bsTrace_nil sim 0 U none htr
        rw [this] at hU
        exact hU rfl
      obtain ⟨m, hm⟩ := Option.isSome_iff_exists.mp (List.getLast?_isSome.mpr hne)
      have := bsLoop_med_last sim 0 U none m hm
      rw [this] at hr
      rw [hm, Option.some.inj hr]

/-- Concrete evaluation of the Battery-variant sizer on the one-step series
`[(0, 7/20)]` with `max_bsize = 1`: the search path is
`1/2 (ok), 1/4 (fail), 3/8 (ok), 5/16 (fail)`, and the returned last midpoint
is the infeasible `5/16`. -/
lemma calc_b1_eval_716 :
    calculate_247_battery_capacity_b1_sim [(0, 7/20)] 1 = some (5/16) := by
  have hs0 : sim_battery_247 [((0:ℚ), 7/20)] ⟨0, 0⟩ = false := by
    norm_num [sim_battery_247, Battery.discharge, Battery.charge]
  have e1 : sim_battery_247 [((0:ℚ), 7/20)] ⟨(1:ℚ)/2, (1:ℚ)/2⟩ = true := by
    norm_num [sim_battery_247, Battery.discharge, Battery.charge]
  have e2 : sim_battery_247 [((0:ℚ), 7/20)] ⟨(1:ℚ)/4, (1:ℚ)/4⟩ = false := by
    norm_num [sim_battery_247, Battery.discharge, Battery.charge]
  have e3 : sim_battery_247 [((0:ℚ), 7/20)] ⟨(3:ℚ)/8, (3:ℚ)/8⟩ = true := by
    norm_num [sim_battery_247, Battery.discharge, Battery.charge]
  have e4 : sim_battery_247 [((0:ℚ), 7/20)] ⟨(5:ℚ)/16, (5:ℚ)/16⟩ = false := by
    norm_num [sim_battery_247, Battery.discharge, Battery.charge]
  have hloop : bsLoop (fun c => sim_battery_247 [((0:ℚ), 7/20)] ⟨c, c⟩) 0 1 none
      = (5/16, 3/8, some (5/16)) := by
    rw [bsLoop.eq_def]; norm_num [e1]
    rw [bsLoop.eq_def]; norm_num [e2]
    rw [bsLoop.eq_def]; norm_num [e3]
    rw [bsLoop.eq_def]; norm_num [e4]
    rw [bsLoop.eq_def]; norm_num
  show (if sim_battery_247 [((0:ℚ), 7/20)] ⟨0, 0⟩ = true then some 0
    else
      if (bsLoop (fun c => sim_battery_247 [((0:ℚ), 7/20)] ⟨c, c⟩) 0 1 none).2.1 = 1
      then none
      else (bsLoop (fun c => sim_battery_247 [((0:ℚ), 7/20)] ⟨c, c⟩) 0 1 none).2.2)
    = some (5/16)
  rw [hs0]
  norm_num [hloop]

/-- C4 (counterexample): the claim fails as stated.  On the series
`[(0, 7/20)]` with `max_bsize = 1` the Battery-variant sizer returns `5/16`,
an infeasible capacity (the last midpoint tightened the lower bound), so
`sim_battery_247` on the result is `False`, not `True`; and on the trivially
feasible series `[(5, 1)]` the sizer returns 0 while the battery initialized
with `0 - 0.2` also passes, so `sim_battery_247` on `result - 0.2` is `True`,
not `False`. -/
theorem c4_counterexample :
    calculate_247_battery_capacity_b1_sim [(0, 7/20)] 1 = some (5/16) ∧
    sim_battery_247 [(0, 7/20)] ⟨5/16, 5/16⟩ = false ∧
    calculate_247_battery_capacity_b1_sim [(5, 1)] 1 = some 0 ∧
    sim_battery_247 [(5, 1)] ⟨0 - 1/5, 0 - 1/5⟩ = true := by
  have e4 : sim_battery_247 [((0:ℚ), 7/20)] ⟨(5:ℚ)/16, (5:ℚ)/16⟩ = false := by
    norm_num [sim_battery_247, Battery.discharge, Battery.charge]
  refine ⟨calc_b1_eval_716, e4, ?_, ?_⟩
  · have hs0' : sim_battery_247 [((5:ℚ), 1)] ⟨0, 0⟩ = true := by
      norm_num [sim_battery_247, Battery.discharge, Battery.charge]
    show (if sim_battery_247 [((5:ℚ), 1)] ⟨0, 0⟩ = true then some 0
      else
        if (bsLoop (fun c => sim_battery_247 [((5:ℚ), 1)] ⟨c, c⟩) 0 1 none).2.1 = 1
        then none
        else (bsLoop (fun c => sim_battery_247 [((5:ℚ), 1)] ⟨c, c⟩) 0 1 none).2.2)
      = some 0
    rw [hs0']
    norm_num
  · norm_num [sim_battery_247, Battery.discharge, Battery.charge]

/-- C4 (amended): if the binary-search sizer (either variant) returns a
non-sentinel result `r`, then either `r = 0` and the zero-capacity battery
already passes the simulator, or `r` lies between exit bounds `l ≤ r ≤ u`
with `u - l ≤ 0.1` such that a fresh battery at capacity `u` (fully charged)
passes `sim_battery_247` and one at capacity `l` fails it: the result is
within the 0.1 convergence tolerance of both a feasible and an infeasible
capacity.  (The returned midpoint itself need not be feasible, and for the
trivially feasible case `result - 0.2` need not fail.) -/
theorem c4_amended (series : List (ℚ × ℚ)) (U : ℚ)
    (hnn : ∀ p ∈ series, 0 ≤ p.1 ∧ 0 ≤ p.2) :
    (∀ r, calculate_247_battery_capacity_b1_sim series U = some r →
      (r = 0 ∧ sim_battery_247 series ⟨0, 0⟩ = true) ∨
      ∃ l u, l ≤ r ∧ r ≤ u ∧ u - l ≤ 1/10 ∧
        sim_battery_247 series ⟨u, u⟩ = true ∧
        sim_battery_247 series ⟨l, l⟩ = false) ∧
    (∀ r, calculate_247_battery_capacity_b2_sim series U = some r →
      (r = 0 ∧ sim_battery_247_b2 series (mkBattery2 0 0) = true) ∨
      ∃ l u, l ≤ r ∧ r ≤ u ∧ u - l ≤ 1/10 ∧
        sim_battery_247_b2 series (mkBattery2 u u) = true ∧
        sim_battery_247_b2 series (mkBattery2 l l) = false) := by
  constructor
  · intro r hr
    by_cases h0 : sim_battery_247 series ⟨0, 0⟩ = true
    · left
      refine ⟨?_, h0⟩
      have : calculate_247_battery_capacity_b1_sim series U = some 0 := by
        show (if sim_battery_247 series ⟨0, 0⟩ = true then some 0 else _) = some 0
        rw [if_pos h0]
      rw [this] at hr
      exact (Option.some.inj hr).symm
    · right
      have h0' : sim_battery_247 series ⟨0, 0⟩ = false := Bool.eq_false_iff.mpr h0
      have hr' : (if (bsLoop (fun c => sim_battery_247 series ⟨c, c⟩) 0 U none).2.1 = U
          then none
          else (bsLoop (fun c => sim_battery_247 series ⟨c, c⟩) 0 U none).2.2)
          = some r := by
        rw [show calculate_247_battery_capacity_b1_sim series U
            = if sim_battery_247 series ⟨0, 0⟩ = true then some 0
              else
                if (bsLoop (fun c => sim_battery_247 series ⟨c, c⟩) 0 U none).2.1 = U
                then none
                else (bsLoop (fun c => sim_battery_247 series ⟨c, c⟩) 0 U none).2.2
          from rfl, if_neg (by rw [h0']; exact Bool.false_ne_true)] at hr
        exact hr
      exact bsearch_result_near (fun c => sim_battery_247 series ⟨c, c⟩) U r h0' hr'
  · intro r hr
    by_cases h0 : sim_battery_247_b2 series (mkBattery2 0 0) = true
    · left
      refine ⟨?_, h0⟩
      have : calculate_247_battery_capacity_b2_sim series U = some 0 := by
        show (if sim_battery_247_b2 series (mkBattery2 0 0) = true then some 0 else _)
          = some 0
        rw [if_pos h0]
      rw [this] at hr
      exact (Option.some.inj hr).symm
    · right
      have h0' : sim_battery_247_b2 series (mkBattery2 0 0) = false := Bool.eq_false_iff.mpr h0
      have hr' : (if (bsLoop (fun c => sim_battery_247_b2 series (mkBattery2 c c)) 0 U none).2.1 = U
          then none
          else (bsLoop (fun c => sim_battery_247_b2 series (mkBattery2 c c)) 0 U none).2.2)
          = some r := by
        rw [show calculate_247_battery_capacity_b2_sim series U
            = if sim_battery_247_b2 series (mkBattery2 0 0) = true then some 0
              else
                if (bsLoop (fun c => sim_battery_247_b2 series (mkBattery2 c c)) 0 U none).2.1 = U
                then none
                else (bsLoop (fun c => sim_battery_247_b2 series (mkBattery2 c c)) 0 U none).2.2
          from rfl, if_neg (by rw [h0']; exact Bool.false_ne_true)] at hr
        exact hr
      exact bsearch_result_near (fun c => sim_battery_247_b2 series (mkBattery2 c c)) U r h0' hr'

theorem c4_witness :
    ((5:ℚ)/16 = 0 ∧ sim_battery_247 [(0, 7/20)] ⟨0, 0⟩ = true) ∨
    ∃ l u, l ≤ (5:ℚ)/16 ∧ (5:ℚ)/16 ≤ u ∧ u - l ≤ 1/10 ∧
      sim_battery_247 [(0, 7/20)] ⟨u, u⟩ = true ∧
      sim_battery_247 [(0, 7/20)] ⟨l, l⟩ = false :=
  (c4_amended [(0, 7/20)] 1 (by norm_num)).1 (5/16) calc_b1_eval_716

/-- C5: each binary-search sizer returns 0 if the zero-capacity battery
already passes the simulator; otherwise it returns the NaN sentinel (`none`)
iff at loop exit the upper bound still equals `max_bsize`, which holds iff no
candidate capacity tested during the search was feasible; and in all
remaining cases it returns the last midpoint computed. -/
theorem c5_sizer_sentinel (series : List (ℚ × ℚ)) (U : ℚ) :
    ((sim_battery_247 series ⟨0, 0⟩ = true →
        calculate_247_battery_capacity_b1_sim series U = some 0) ∧
      (sim_battery_247 series ⟨0, 0⟩ = false →
        ((calculate_247_battery_capacity_b1_sim series U = none
            ↔ (bsLoop (fun c => sim_battery_247 series ⟨c, c⟩) 0 U none).2.1 = U) ∧
          ((bsLoop (fun c => sim_battery_247 series ⟨c, c⟩) 0 U none).2.1 = U
            ↔ ∀ m ∈ bsTrace (fun c => sim_battery_247 series ⟨c, c⟩) 0 U,
                sim_battery_247 series ⟨m, m⟩ = false) ∧
          (∀ r, calculate_247_battery_capacity_b1_sim series U = some r →
            (bsTrace (fun c => sim_battery_247 series ⟨c, c⟩) 0 U).getLast?
              = some r)))) ∧
    ((sim_battery_247_b2 series (mkBattery2 0 0) = true →
        calculate_247_battery_capacity_b2_sim series U = some 0) ∧
      (sim_battery_247_b2 series (mkBattery2 0 0) = false →
        ((calculate_247_battery_capacity_b2_sim series U = none
            ↔ (bsLoop (fun c => sim_battery_247_b2 series (mkBattery2 c c)) 0 U none).2.1
                = U) ∧
          ((bsLoop (fun c => sim_battery_247_b2 series (mkBattery2 c c)) 0 U none).2.1 = U
            ↔ ∀ m ∈ bsTrace (fun c => sim_battery_247_b2 series (mkBattery2 c c)) 0 U,
                sim_battery_247_b2 series (mkBattery2 m m) = false) ∧
          (∀ r, calculate_247_battery_capacity_b2_sim series U = some r →
            (bsTrace (fun c => sim_battery_247_b2 series (mkBattery2 c c)) 0 U).getLast?
              = some r)))) := by
  constructor
  · constructor
    · intro h0
      show (if sim_battery_247 series ⟨0, 0⟩ = true then some 0 else _) = some 0
      rw [if_pos h0]
    · intro h0'
      have hcalc : calculate_247_battery_capacity_b1_sim series U
          = if (bsLoop (fun c => sim_battery_247 series ⟨c, c⟩) 0 U none).2.1 = U
            then none
            else (bsLoop (fun c => sim_battery_247 series ⟨c, c⟩) 0 U none).2.2 := by
        show (if sim_battery_247 series ⟨0, 0⟩ = true then some 0 else _) = _
        rw [if_neg (by rw [h0']; exact Bool.false_ne_true)]
      rw [hcalc]
      exact ⟨(bsearch_cases (fun c => sim_battery_247 series ⟨c, c⟩) U).1,
        (bsearch_cases (fun c => sim_battery_247 series ⟨c, c⟩) U).2.1,
        (bsearch_cases (fun c => sim_battery_247 series ⟨c, c⟩) U).2.2⟩
  · constructor
    · intro h0
      show (if sim_battery_247_b2 series (mkBattery2 0 0) = true then some 0 else _)
        = some 0
      rw [if_pos h0]
    · intro h0'
      have hcalc : calculate_247_battery_capacity_b2_sim series U
          = if (bsLoop (fun c => sim_battery_247_b2 series (mkBattery2 c c)) 0 U none).2.1
              = U
            then none
            else (bsLoop (fun c => sim_battery_247_b2 series (mkBattery2 c c)) 0 U none).2.2 := by
        show (if sim_battery_247_b2 series (mkBattery2 0 0) = true then some 0 else _) = _
        rw [if_neg (by rw [h0']; exact Bool.false_ne_true)]
      rw [hcalc]
      exact ⟨(bsearch_cases (fun c => sim_battery_247_b2 series (mkBattery2 c c)) U).1,
        (bsearch_cases (fun c => sim_battery_247_b2 series (mkBattery2 c c)) U).2.1,
        (bsearch_cases (fun c => sim_battery_247_b2 series (mkBattery2 c c)) U).2.2⟩

theorem c5_witness :
    (calculate_247_battery_capacity_b1_sim [(0, 1)] (1/5) = none
      ↔ (bsLoop (fun c => sim_battery_247 [((0:ℚ), 1)] ⟨c, c⟩) 0 (1/5) none).2.1 = 1/5) ∧
    ((bsLoop (fun c => sim_battery_247 [((0:ℚ), 1)] ⟨c, c⟩) 0 (1/5) none).2.1 = 1/5
      ↔ ∀ m ∈ bsTrace (fun c => sim_battery_247 [((0:ℚ), 1)] ⟨c, c⟩) 0 (1/5),
          sim_battery_247 [((0:ℚ), 1)] ⟨m, m⟩ = false) ∧
    (∀ r, calculate_247_battery_capacity_b1_sim [(0, 1)] (1/5) = some r →
      (bsTrace (fun c => sim_battery_247 [((0:ℚ), 1)] ⟨c, c⟩) 0 (1/5)).getLast?
        = some r) :=
  (c5_sizer_sentinel [(0, 1)] (1/5)).1.2
    (by norm_num [sim_battery_247, Battery.discharge, Battery.charge])
